import Mathlib

/-
Verification of the persistence/search core of the UPSC Pro quiz app
(src/db.js with src/core.js), as a shallow embedding in Lean.

The Dexie (IndexedDB) tables are modelled as Lean lists of records; the
primary-key `put` of Dexie becomes a keyed insert-or-replace on the list.
The FlexSearch document index is modelled from the library's documented
behaviour as configured in `setupFlexSearchIndex` (forward tokenization,
three indexed fields, per-field result limit, enriched stored documents).
Asynchrony plays no role in the properties below, so `async` functions
become pure state-passing functions; a JS `throw` that the code catches is
modelled with `Except` or an explicit failure flag.
-/

namespace UPSCPro

/-- An entry of a question's `options` list ({id, text, is_correct}). -/
structure QOption where
  oid : String
  text : String
  is_correct : Bool
deriving Repr, DecidableEq

/-- An entry of a question's optional `statements` list ({id, text}). -/
structure StatementRec where
  sid : Nat
  text : String
deriving Repr, DecidableEq

/-- A question's `explanation` object ({summary, text}). -/
structure Explanation where
  summary : String
  text : String
deriving Repr, DecidableEq

/-- A record of the `questions` table (schema `id, subject, topic, *keywords`).
`explanation` is optional in the source (accessed as `q.explanation?.summary`),
so it is an `Option` here; an absent `statements`/`keywords` list is the empty
list. -/
structure Question where
  id : Nat
  subject : String
  topic : String
  keywords : List String
  question_text : String
  statements : List StatementRec
  options : List QOption
  qtype : String
  explanation : Option Explanation
deriving Repr, DecidableEq

/-- Dexie `put` on the `questions` table: insert-or-replace keyed by the
primary key `id` (the table never holds two rows with one id). -/
def putQuestion : List Question → Question → List Question
  | [], q => [q]
  | r :: rest, q => if r.id == q.id then q :: rest else r :: putQuestion rest q

/-- Dexie `bulkPut` on the `questions` table: keyed upsert of each record in
order. -/
def bulkPutQuestions (tbl : List Question) (qs : List Question) : List Question :=
  qs.foldl putQuestion tbl

/-- db.js `addQuestions(questions)`: `db.questions.bulkPut(questions)`.
It writes to the store only; the search index is not touched. -/
def addQuestions (tbl : List Question) (qs : List Question) : List Question :=
  bulkPutQuestions tbl qs

/-- db.js `db.questions.count()`. -/
def questionCount (tbl : List Question) : Nat := tbl.length

/-- db.js `getQuestions(subject, topic)`: `where({subject})`, then
`.filter(q => q.topic === topic)` only when `topic` is truthy (the empty
string is falsy in JS). -/
def getQuestions (tbl : List Question) (subject topic : String) : List Question :=
  let collection := tbl.filter (fun q => q.subject == subject)
  if topic == "" then collection else collection.filter (fun q => q.topic == topic)

/-- core.js `fetchInitialQuestions`: the outcome of `fetch` + `response.json()`
is passed in as an `Except` (`.error` covers a network throw, the
`!response.ok` throw and a parse throw). On error it logs
`INITIAL_DATA_FETCH_FAIL` and returns `[]`. Second component: log entries. -/
def fetchInitialQuestions (outcome : Except String (List Question)) :
    List Question × List String :=
  match outcome with
  | .ok qs => (qs, [])
  | .error e => ([], ["INITIAL_DATA_FETCH_FAIL: " ++ e])

/-- The body of db.js `initializeDatabase` inside its `try`: if the table is
empty, fetch the initial dataset and `bulkPut` it when non-empty. The store
operations themselves are pure in this model, and `fetchInitialQuestions`
already catches its own failures, so the body never reaches `.error`; the
`Except` return mirrors the code's structure (the surrounding `catch`). -/
def initializeDatabaseBody (tbl : List Question)
    (outcome : Except String (List Question)) :
    Except String (List Question × List String) :=
  if questionCount tbl = 0 then
    let fr := fetchInitialQuestions outcome
    if fr.1.length > 0 then .ok (bulkPutQuestions tbl fr.1, fr.2)
    else .ok (tbl, fr.2)
  else .ok (tbl, [])

/-- db.js `initializeDatabase`: the body with its `catch`, which logs
`DB_BOOTSTRAP_FAIL` and continues. -/
def initializeDatabase (tbl : List Question)
    (outcome : Except String (List Question)) : List Question × List String :=
  match initializeDatabaseBody tbl outcome with
  | .ok r => r
  | .error e => (tbl, ["DB_BOOTSTRAP_FAIL: " ++ e])

/-- A record of the `settings` table (schema `key`): `{key, value}`. -/
structure SettingRec (α : Type) where
  key : String
  value : α
deriving Repr, DecidableEq

/-- Dexie `put` on the `settings` table: insert-or-replace keyed by `key`. -/
def settingsPut {α : Type} : List (SettingRec α) → SettingRec α → List (SettingRec α)
  | [], s => [s]
  | r :: rest, s => if r.key == s.key then s :: rest else r :: settingsPut rest s

/-- db.js `getSetting(key)`: `db.settings.get(key)` inside a `try`; returns
`record.value` when a record exists, `null` (here `none`) when absent, and
`null` when the read throws (`fail` injects the storage-read exception the
`catch` swallows). -/
def getSetting {α : Type} (tbl : List (SettingRec α)) (key : String)
    (fail : Bool) : Option α :=
  if fail then none
  else
    match tbl.find? (fun r => r.key == key) with
    | some record => some record.value
    | none => none

/-- db.js `setSetting(key, value)`: `db.settings.put({key, value})`. -/
def setSetting {α : Type} (tbl : List (SettingRec α)) (key : String) (value : α) :
    List (SettingRec α) :=
  settingsPut tbl ⟨key, value⟩

/-- A record of the `notes` table (schema `++id, title, timestamp`). -/
structure Note where
  id : Nat
  title : String
  content : String
  timestamp : Nat
deriving Repr, DecidableEq

/-- Dexie `put` on the `notes` table for a note that carries its id:
insert-or-replace keyed by the primary key. -/
def notePut : List Note → Note → List Note
  | [], n => [n]
  | r :: rest, n => if r.id == n.id then n :: rest else r :: notePut rest n

/-- db.js `saveNote(note)`: `note.timestamp = Date.now()` (the argument object
is mutated — modelled by returning the stored record) then
`db.notes.put(note)`. `now` is the `Date.now()` reading. -/
def saveNote (tbl : List Note) (note : Note) (now : Nat) : Note × List Note :=
  let stored := { note with timestamp := now }
  (stored, notePut tbl stored)

/-- Note `a` sorts no later than `b` under `orderBy('timestamp').reverse()`:
descending timestamp; Dexie iterates equal index keys by ascending primary
key, so the reversed traversal breaks ties by descending id. -/
def noteDescLe (a b : Note) : Bool :=
  Nat.blt b.timestamp a.timestamp ||
    (b.timestamp == a.timestamp && Nat.ble b.id a.id)

/-- Insertion step of the sorted traversal. -/
def insertNoteDesc (n : Note) : List Note → List Note
  | [] => [n]
  | m :: ms => if noteDescLe n m then n :: m :: ms else m :: insertNoteDesc n ms

/-- db.js `getNotes()`: `db.notes.orderBy('timestamp').reverse().toArray()`,
the stored notes sorted newest-timestamp-first. -/
def getNotes (tbl : List Note) : List Note := tbl.foldr insertNoteDesc []

/-- A document of the FlexSearch index as added by `populateSearchIndex`:
`{id, question_text, 'explanation.summary', keywords}` — the id plus the
three indexed fields the index matches on. -/
structure SearchDoc where
  id : Nat
  question_text : String
  explanationSummary : String
  keywords : List String
deriving Repr, DecidableEq

/-- The projection `populateSearchIndex` adds for one question:
`{id: q.id, question_text: q.question_text || '', 'explanation.summary':
q.explanation?.summary || '', keywords: q.keywords || []}`. -/
def toSearchDoc (q : Question) : SearchDoc where
  id := q.id
  question_text := q.question_text
  explanationSummary := (q.explanation.map Explanation.summary).getD ""
  keywords := q.keywords

/-- The enriched stored document a search result carries (`enrich: true`).
The `store:` configuration names id, subject, topic, question_text,
statements, options, explanation, keywords and type; of these only `id`,
`question_text` and `keywords` are present on the added object, so the
stored document holds just those three and the six other configured fields
are absent (`none`). The flat `'explanation.summary'` key of the added
object is not in the store list, so no explanation summary is stored at
all. -/
structure StoredDoc where
  id : Nat
  question_text : String
  keywords : List String
  subject : Option String
  topic : Option String
  statements : Option (List StatementRec)
  options : Option (List QOption)
  explanationFull : Option Explanation
  qtype : Option String
deriving Repr, DecidableEq

/-- The store extraction FlexSearch performs on the added document. -/
def storedDocOf (d : SearchDoc) : StoredDoc where
  id := d.id
  question_text := d.question_text
  keywords := d.keywords
  subject := none
  topic := none
  statements := none
  options := none
  explanationFull := none
  qtype := none

/-- Whitespace tokenizer (model of the FlexSearch default encoder's
splitting), over the character list with an accumulator. -/
def tokenizeAux : List Char → List Char → List (List Char)
  | [], acc => if acc.isEmpty then [] else [acc.reverse]
  | c :: cs, acc =>
      if c == ' ' then
        if acc.isEmpty then tokenizeAux cs [] else acc.reverse :: tokenizeAux cs []
      else tokenizeAux cs (c :: acc)

/-- The tokens of a string. -/
def strTokens (s : String) : List (List Char) := tokenizeAux s.data []

/-- The first argument is an initial segment of the second — the
`tokenize: "forward"` matching of the index: a query term hits every token
that extends it. -/
def isPre : List Char → List Char → Bool
  | [], _ => true
  | _ :: _, [] => false
  | c :: cs, d :: ds => c == d && isPre cs ds

/-- A text field matches a query term when some of its tokens extends the
term (forward tokenization). -/
def fieldMatchesTerm (text : String) (term : List Char) : Bool :=
  (strTokens text).any (fun w => isPre term w)

/-- The three indexed fields of the document index: `question_text`,
`explanation.summary`, `keywords`. -/
inductive SField where
  | qtext
  | summary
  | kw
deriving Repr, DecidableEq

/-- A document matches a field for a query when every query term matches
that field (the index's default conjunctive semantics). -/
def docMatchesField (d : SearchDoc) (f : SField) (terms : List (List Char)) : Bool :=
  terms.all (fun t =>
    match f with
    | .qtext => fieldMatchesTerm d.question_text t
    | .summary => fieldMatchesTerm d.explanationSummary t
    | .kw => d.keywords.any (fun k => fieldMatchesTerm k t))

/-- Model of `questionSearchIndex.search(query, {limit, enrich: true})` for
the FlexSearch Document index: one result group per indexed field that has a
hit, holding the matching documents in index order, capped at `limit` — the
limit applies to each field separately, not to the union of the groups. -/
def indexSearch (idx : List SearchDoc) (query : String) (limit : Nat) :
    List (List SearchDoc) :=
  if (strTokens query).isEmpty then []
  else
    ([SField.qtext, SField.summary, SField.kw].map
        (fun f =>
          (idx.filter (fun d => docMatchesField d f (strTokens query))).take limit)).filter
      (fun g => !g.isEmpty)

/-- One `uniqueDocs.set(doc.id, doc.doc)` step of fullTextSearchQuestions
over the enriched stored documents: a JS Map keeps insertion order, and
`set` on a present key overwrites the value in place. -/
def mapSetDoc (acc : List StoredDoc) (d : StoredDoc) : List StoredDoc :=
  if acc.any (fun x => x.id == d.id) then
    acc.map (fun x => if x.id == d.id then d else x)
  else acc ++ [d]

/-- The whole Map pass: every result doc of every field group, in order. -/
def dedupById (ds : List StoredDoc) : List StoredDoc :=
  ds.foldl mapSetDoc []

/-- The module state of db.js around search: whether the FlexSearch global is
loaded, and `questionSearchIndex` (`none` = still `null`). -/
structure SearchState where
  flexLoaded : Bool
  index : Option (List SearchDoc)
deriving Repr, DecidableEq

/-- db.js `setupFlexSearchIndex`: constructs an empty Document index, or
leaves `questionSearchIndex` null when the FlexSearch library is not
loaded (it warns and returns). -/
def setupFlexSearchIndex (s : SearchState) : SearchState :=
  if s.flexLoaded then { s with index := some [] } else s

/-- db.js `populateSearchIndex`: sets the index up when null, gives up if it
is still null, then adds the projection of every stored question to it. -/
def populateSearchIndex (qtbl : List Question) (s : SearchState) : SearchState :=
  let s1 := if s.index.isNone then setupFlexSearchIndex s else s
  match s1.index with
  | none => s1
  | some idx => { s1 with index := some (idx ++ qtbl.map toSearchDoc) }

/-- db.js `fullTextSearchQuestions(query)`: lazily populates a null index,
returns `[]` if the index is still null, searches with `{limit: 10, enrich:
true}` and flattens the field groups through the dedup Map. `searchThrows`
injects an exception of the underlying index query; the surrounding
`try`/`catch` turns it into `[]`. -/
def fullTextSearchQuestions (qtbl : List Question) (s : SearchState)
    (query : String) (searchThrows : Bool) : List StoredDoc × SearchState :=
  let s1 := if s.index.isNone then populateSearchIndex qtbl s else s
  match s1.index with
  | none => ([], s1)
  | some idx =>
      if searchThrows then ([], s1)
      else (dedupById ((indexSearch idx query 10).flatten.map storedDocOf), s1)

/-- The DOMContentLoaded startup sequence of db.js: `initializeDatabase`,
then `populateSearchIndex` over the resulting table. -/
def startup (tbl : List Question) (outcome : Except String (List Question))
    (s : SearchState) : (List Question × List String) × SearchState :=
  let r := initializeDatabase tbl outcome
  (r, populateSearchIndex r.1 s)

/-- The spec's reading of a search result element as "a full Question record
as persisted": every persisted field is present on the returned document and
agrees with the stored record. -/
def searchDocIsFullRecordOf (d : StoredDoc) (q : Question) : Bool :=
  d.id == q.id && d.question_text == q.question_text &&
  d.subject == some q.subject && d.topic == some q.topic &&
  d.options == some q.options && d.qtype == some q.qtype &&
  d.statements == some q.statements && d.explanationFull == q.explanation &&
  d.keywords == q.keywords

/-- A question added after startup, carrying the distinctive token "zebra"
in its question_text. -/
def c1Question : Question :=
  ⟨42, "History", "IVC", ["zebra"], "zebra migration", [],
    [⟨"a", "A", true⟩], "single-choice", none⟩

/-- Eleven stored questions: ids 1–10 match the query "a" on question_text,
id 11 matches it only on keywords (forward match of "a" against "ab"). -/
def c2Table : List Question :=
  [⟨1, "", "", [], "a", [], [], "", none⟩, ⟨2, "", "", [], "a", [], [], "", none⟩,
   ⟨3, "", "", [], "a", [], [], "", none⟩, ⟨4, "", "", [], "a", [], [], "", none⟩,
   ⟨5, "", "", [], "a", [], [], "", none⟩, ⟨6, "", "", [], "a", [], [], "", none⟩,
   ⟨7, "", "", [], "a", [], [], "", none⟩, ⟨8, "", "", [], "a", [], [], "", none⟩,
   ⟨9, "", "", [], "a", [], [], "", none⟩, ⟨10, "", "", [], "a", [], [], "", none⟩,
   ⟨11, "", "", ["ab"], "b", [], [], "", none⟩]

/-- A one-question store whose record carries every persisted field. -/
def c9Table : List Question :=
  [⟨1, "History", "IVC", ["harappa"], "zest", [⟨1, "S1"⟩],
    [⟨"a", "A", true⟩], "single-choice", some ⟨"short", "long text"⟩⟩]

theorem mem_putQuestion_self (tbl : List Question) (q : Question) :
    q ∈ putQuestion tbl q := by
  induction tbl with
  | nil => simp [putQuestion]
  | cons r rest ih =>
    unfold putQuestion
    split
    · exact List.mem_cons_self _ _
    · exact List.mem_cons_of_mem _ ih

theorem putQuestion_replace (tbl : List Question) (q : Question)
    (hnodup : (tbl.map Question.id).Nodup)
    (hmem : ∃ r ∈ tbl, r.id = q.id) :
    (putQuestion tbl q).length = tbl.length ∧
    (putQuestion tbl q).filter (fun r => r.id == q.id) = [q] := by
  induction tbl with
  | nil => rcases hmem with ⟨r, hr, _⟩; cases hr
  | cons r rest ih =>
    rw [List.map_cons, List.nodup_cons] at hnodup
    unfold putQuestion
    by_cases h : (r.id == q.id) = true
    · rw [if_pos h]
      have hid : r.id = q.id := beq_iff_eq.mp h
      refine ⟨by simp, ?_⟩
      have hrest : rest.filter (fun x => x.id == q.id) = [] := by
        rw [List.filter_eq_nil_iff]
        intro x hx hxq
        exact hnodup.1 (hid ▸ (beq_iff_eq.mp hxq) ▸ List.mem_map_of_mem Question.id hx)
      simp [List.filter_cons, hrest]
    · rw [if_neg h]
      have hmem' : ∃ r' ∈ rest, r'.id = q.id := by
        rcases hmem with ⟨r', hr', hid'⟩
        rcases List.mem_cons.mp hr' with heq | hin
        · exact absurd (beq_iff_eq.mpr (heq ▸ hid')) (by simpa using h)
        · exact ⟨r', hin, hid'⟩
      rcases ih hnodup.2 hmem' with ⟨hlen, hfil⟩
      refine ⟨by simp [hlen], ?_⟩
      rw [List.filter_cons, if_neg (by simpa using h), hfil]

/-- C3: after `addQuestions([q])` (Dexie `bulkPut`), `getQuestions` with the
question's own subject and topic returns a list containing a record whose id
equals `q.id` — the store write/read round-trip under exact match. -/
theorem addQuestions_getQuestions_roundtrip (tbl : List Question) (q : Question) :
    ∃ r ∈ getQuestions (addQuestions tbl [q]) q.subject q.topic, r.id = q.id := by
  refine ⟨q, ?_, rfl⟩
  have hq : q ∈ addQuestions tbl [q] := by
    simpa [addQuestions, bulkPutQuestions] using mem_putQuestion_self tbl q
  unfold getQuestions
  by_cases h : (q.topic == "") = true
  · simp only [h, if_pos]
    exact List.mem_filter.mpr ⟨hq, by simp⟩
  · simp only [h, if_neg, Bool.false_eq_true, not_false_iff]
    exact List.mem_filter.mpr ⟨List.mem_filter.mpr ⟨hq, by simp⟩, by simp⟩

/-- C4: upserting a question whose id is already present replaces the existing
row: the row count is unchanged and exactly one row (namely the new record)
has that id afterwards. The `Nodup` hypothesis is Dexie's primary-key
invariant of the `questions` table. -/
theorem addQuestions_upsert_replaces (tbl : List Question) (q : Question)
    (hnodup : (tbl.map Question.id).Nodup)
    (hmem : ∃ r ∈ tbl, r.id = q.id) :
    questionCount (addQuestions tbl [q]) = questionCount tbl ∧
    (addQuestions tbl [q]).filter (fun r => r.id == q.id) = [q] := by
  have hput : addQuestions tbl [q] = putQuestion tbl q := by
    simp [addQuestions, bulkPutQuestions]
  rw [hput]
  exact putQuestion_replace tbl q hnodup hmem

/-- Witness for C4 at a concrete store: a two-row table, the second row's id
re-used by a fresh record. -/
theorem addQuestions_upsert_replaces_witness :
    questionCount (addQuestions
      [⟨1, "History", "IVC", [], "Q1", [], [⟨"a", "A", true⟩], "single-choice", none⟩,
       ⟨2, "Polity", "DPSP", [], "Q2", [], [⟨"a", "A", true⟩], "single-choice", none⟩]
      [⟨2, "Polity", "FR", ["rights"], "Q2v2", [], [⟨"b", "B", true⟩], "single-choice", none⟩]) =
    questionCount
      [⟨1, "History", "IVC", [], "Q1", [], [⟨"a", "A", true⟩], "single-choice", none⟩,
       ⟨2, "Polity", "DPSP", [], "Q2", [], [⟨"a", "A", true⟩], "single-choice", none⟩] ∧
    (addQuestions
      [⟨1, "History", "IVC", [], "Q1", [], [⟨"a", "A", true⟩], "single-choice", none⟩,
       ⟨2, "Polity", "DPSP", [], "Q2", [], [⟨"a", "A", true⟩], "single-choice", none⟩]
      [⟨2, "Polity", "FR", ["rights"], "Q2v2", [], [⟨"b", "B", true⟩], "single-choice", none⟩]).filter
        (fun r => r.id == (2 : Nat)) =
    [⟨2, "Polity", "FR", ["rights"], "Q2v2", [], [⟨"b", "B", true⟩], "single-choice", none⟩] :=
  addQuestions_upsert_replaces _ _ (by decide) (by decide)

/-- C5: when the bootstrap fetch throws, initialization completes without an
exception (the body stays in `.ok`), the question table stays empty, and the
failure is logged. -/
theorem bootstrap_fetch_failure (tbl : List Question) (e : String)
    (hempty : questionCount tbl = 0) :
    (∃ r, initializeDatabaseBody tbl (.error e) = Except.ok r) ∧
    questionCount (initializeDatabase tbl (.error e)).1 = 0 ∧
    ("INITIAL_DATA_FETCH_FAIL: " ++ e) ∈ (initializeDatabase tbl (.error e)).2 := by
  have htbl : tbl = [] := List.length_eq_zero.mp hempty
  subst htbl
  refine ⟨⟨([], ["INITIAL_DATA_FETCH_FAIL: " ++ e]), ?_⟩, ?_, ?_⟩ <;>
    simp [initializeDatabase, initializeDatabaseBody, fetchInitialQuestions,
      questionCount]

/-- Witness for C5 on the empty store with a network failure. -/
theorem bootstrap_fetch_failure_witness :
    (∃ r, initializeDatabaseBody [] (.error "network down") = Except.ok r) ∧
    questionCount (initializeDatabase [] (.error "network down")).1 = 0 ∧
    ("INITIAL_DATA_FETCH_FAIL: " ++ "network down") ∈
      (initializeDatabase [] (.error "network down")).2 :=
  bootstrap_fetch_failure [] "network down" rfl

/-- C6: bootstrap is idempotent on a populated store: when `questionCount` is
non-zero, `initializeDatabase` leaves the question table unchanged and
performs no fetch (no log entry is produced). -/
theorem bootstrap_idempotent_on_populated (tbl : List Question)
    (outcome : Except String (List Question)) (hpop : questionCount tbl ≠ 0) :
    initializeDatabase tbl outcome = (tbl, []) := by
  unfold initializeDatabase initializeDatabaseBody
  rw [if_neg hpop]

/-- Witness for C6: a second bootstrap run over a one-row store, with a
non-empty dataset available, changes nothing. -/
theorem bootstrap_idempotent_witness :
    initializeDatabase
      [⟨1, "History", "IVC", [], "Q1", [], [⟨"a", "A", true⟩], "single-choice", none⟩]
      (.ok [⟨7, "Economy", "Banking", [], "Q7", [], [⟨"a", "A", true⟩], "single-choice", none⟩]) =
    ([⟨1, "History", "IVC", [], "Q1", [], [⟨"a", "A", true⟩], "single-choice", none⟩], []) :=
  bootstrap_idempotent_on_populated _ _ (by decide)

theorem find?_settingsPut_self {α : Type} (tbl : List (SettingRec α)) (k : String) (v : α) :
    (settingsPut tbl ⟨k, v⟩).find? (fun r => r.key == k) = some ⟨k, v⟩ := by
  induction tbl with
  | nil => simp [settingsPut]
  | cons r rest ih =>
    unfold settingsPut
    by_cases h : (r.key == k) = true
    · rw [if_pos h]
      simp [List.find?]
    · rw [if_neg h]
      rw [List.find?_cons_of_neg _ (by simpa using h)]
      exact ih

/-- C7: `getSetting` returns `none` for an absent key and when the storage
read throws, and a `setSetting`/`getSetting` round-trip on the same key
returns the stored value. -/
theorem getSetting_contract {α : Type} (tbl : List (SettingRec α)) (key k : String) (v : α) :
    (tbl.find? (fun r => r.key == key) = none → getSetting tbl key false = none) ∧
    getSetting tbl key true = none ∧
    getSetting (setSetting tbl k v) k false = some v := by
  refine ⟨fun h => by simp [getSetting, h], rfl, ?_⟩
  simp [getSetting, setSetting, find?_settingsPut_self]

/-- Witness for C7: empty settings table, an absent key, and a round-trip of
the reserved API-key entry. -/
theorem getSetting_contract_witness :
    getSetting ([] : List (SettingRec String)) "missing" false = none ∧
    getSetting ([] : List (SettingRec String)) "missing" true = none ∧
    getSetting (setSetting ([] : List (SettingRec String)) "geminiApiKey" "secret")
      "geminiApiKey" false = some "secret" :=
  ⟨(getSetting_contract [] "missing" "geminiApiKey" "secret").1 rfl,
   (getSetting_contract [] "missing" "geminiApiKey" "secret").2.1,
   (getSetting_contract [] "missing" "geminiApiKey" "secret").2.2⟩

theorem mem_insertNoteDesc {x n : Note} {l : List Note} :
    x ∈ insertNoteDesc n l ↔ x = n ∨ x ∈ l := by
  induction l with
  | nil => simp [insertNoteDesc]
  | cons m ms ih =>
    unfold insertNoteDesc
    split
    · simp [List.mem_cons]
    · simp only [List.mem_cons, ih]
      tauto

theorem mem_getNotes {x : Note} {l : List Note} : x ∈ getNotes l ↔ x ∈ l := by
  induction l with
  | nil => simp [getNotes]
  | cons m ms ih =>
    show x ∈ insertNoteDesc m (getNotes ms) ↔ _
    rw [mem_insertNoteDesc, ih]
    simp

theorem insertNoteDesc_front {l tbl : List Note} {n : Note}
    (hfresh : ∀ m ∈ tbl, m.timestamp < n.timestamp)
    (hsub : ∀ m ∈ l, m ∈ tbl) :
    insertNoteDesc n l = n :: l := by
  cases l with
  | nil => rfl
  | cons m ms =>
    have hm : m.timestamp < n.timestamp := hfresh m (hsub m (List.mem_cons_self m ms))
    unfold insertNoteDesc
    rw [if_pos]
    unfold noteDescLe
    rw [Bool.or_eq_true, Nat.blt_eq]
    exact Or.inl hm

theorem insertNoteDesc_skip {l : List Note} {n x : Note}
    (hx : x.timestamp < n.timestamp) :
    insertNoteDesc x (n :: l) = n :: insertNoteDesc x l := by
  have hle : noteDescLe x n = false := by
    unfold noteDescLe
    have h1 : Nat.blt n.timestamp x.timestamp = false := by
      rw [Bool.eq_false_iff, Ne, Nat.blt_eq]
      omega
    have h2 : (n.timestamp == x.timestamp) = false := by
      rw [Bool.eq_false_iff, Ne, beq_iff_eq]
      omega
    rw [h1, h2]
    rfl
  simp [insertNoteDesc, hle]

theorem getNotes_notePut_head (tbl : List Note) (n : Note)
    (hnodup : (tbl.map Note.id).Nodup)
    (hmem : ∃ r ∈ tbl, r.id = n.id)
    (hfresh : ∀ r ∈ tbl, r.id ≠ n.id → r.timestamp < n.timestamp) :
    ∃ t, getNotes (notePut tbl n) = n :: t := by
  induction tbl with
  | nil => rcases hmem with ⟨r, hr, _⟩; cases hr
  | cons r rest ih =>
    rw [List.map_cons, List.nodup_cons] at hnodup
    unfold notePut
    by_cases h : (r.id == n.id) = true
    · rw [if_pos h]
      have hid : r.id = n.id := beq_iff_eq.mp h
      have hrest : ∀ m ∈ rest, m.timestamp < n.timestamp := by
        intro m hm
        apply hfresh m (List.mem_cons_of_mem _ hm)
        intro hmn
        exact hnodup.1 (hid ▸ hmn ▸ List.mem_map_of_mem Note.id hm)
      refine ⟨getNotes rest, ?_⟩
      show insertNoteDesc n (getNotes rest) = n :: getNotes rest
      exact insertNoteDesc_front hrest (fun m hm => mem_getNotes.mp hm)
    · rw [if_neg h]
      have hr_ne : r.id ≠ n.id := by simpa [beq_iff_eq] using h
      have hmem' : ∃ r' ∈ rest, r'.id = n.id := by
        rcases hmem with ⟨r', hr', hid'⟩
        rcases List.mem_cons.mp hr' with heq | hin
        · exact absurd (heq ▸ hid') hr_ne
        · exact ⟨r', hin, hid'⟩
      rcases ih hnodup.2 hmem'
          (fun m hm hne => hfresh m (List.mem_cons_of_mem _ hm) hne) with ⟨t, ht⟩
      refine ⟨insertNoteDesc r t, ?_⟩
      show insertNoteDesc r (getNotes (notePut rest n)) = _
      rw [ht]
      exact insertNoteDesc_skip (hfresh r (List.mem_cons_self _ _) hr_ne)

/-- C10: `saveNote` overwrites the argument's timestamp with the clock
reading before storing (a caller-supplied timestamp is discarded), so after
saving an existing note (update by id) at a time newer than every other
stored note, that note carries the newest timestamp and is the first element
`getNotes` returns. The `Nodup` hypothesis is the primary-key invariant of
the `notes` table. -/
theorem saveNote_newest_first (tbl : List Note) (note : Note) (now : Nat)
    (hnodup : (tbl.map Note.id).Nodup)
    (hmem : ∃ r ∈ tbl, r.id = note.id)
    (hfresh : ∀ r ∈ tbl, r.id ≠ note.id → r.timestamp < now) :
    (saveNote tbl note now).1.timestamp = now ∧
    ∃ t, getNotes (saveNote tbl note now).2 = (saveNote tbl note now).1 :: t := by
  refine ⟨rfl, ?_⟩
  exact getNotes_notePut_head tbl { note with timestamp := now } hnodup hmem hfresh

/-- Witness for C10: a two-note table; the note with id 2 is re-saved at
time 10 with a stale caller timestamp 999, and comes back first with
timestamp 10. -/
theorem saveNote_newest_first_witness :
    (saveNote [⟨1, "one", "alpha", 5⟩, ⟨2, "two", "beta", 7⟩]
      ⟨2, "two v2", "gamma", 999⟩ 10).1.timestamp = 10 ∧
    ∃ t, getNotes (saveNote [⟨1, "one", "alpha", 5⟩, ⟨2, "two", "beta", 7⟩]
        ⟨2, "two v2", "gamma", 999⟩ 10).2 =
      (saveNote [⟨1, "one", "alpha", 5⟩, ⟨2, "two", "beta", 7⟩]
        ⟨2, "two v2", "gamma", 999⟩ 10).1 :: t :=
  saveNote_newest_first _ _ _ (by decide) (by decide) (by decide)

theorem mem_mapSetDoc {x d : StoredDoc} {acc : List StoredDoc}
    (hx : x ∈ mapSetDoc acc d) : x ∈ acc ∨ x = d := by
  unfold mapSetDoc at hx
  split at hx
  · rcases List.mem_map.mp hx with ⟨y, hy, hxy⟩
    by_cases h : (y.id == d.id) = true
    · right
      rw [← hxy]
      simp [h]
    · left
      rw [← hxy]
      simpa [h] using hy
  · rcases List.mem_append.mp hx with h | h
    · exact Or.inl h
    · exact Or.inr (by simpa using h)

theorem mem_foldl_mapSetDoc {x : StoredDoc} :
    ∀ (ds acc : List StoredDoc), x ∈ ds.foldl mapSetDoc acc → x ∈ acc ∨ x ∈ ds := by
  intro ds
  induction ds with
  | nil => exact fun acc h => Or.inl h
  | cons d rest ih =>
    intro acc h
    rcases ih (mapSetDoc acc d) h with h1 | h1
    · rcases mem_mapSetDoc h1 with h2 | h2
      · exact Or.inl h2
      · exact Or.inr (h2 ▸ List.mem_cons_self d rest)
    · exact Or.inr (List.mem_cons_of_mem _ h1)

theorem mem_dedupById {x : StoredDoc} {ds : List StoredDoc}
    (h : x ∈ dedupById ds) : x ∈ ds := by
  rcases mem_foldl_mapSetDoc ds [] h with h1 | h1
  · cases h1
  · exact h1

theorem mapSetDoc_ids_nodup {acc : List StoredDoc} {d : StoredDoc}
    (h : (acc.map StoredDoc.id).Nodup) :
    ((mapSetDoc acc d).map StoredDoc.id).Nodup := by
  unfold mapSetDoc
  split
  · rw [List.map_map]
    have heq : acc.map (StoredDoc.id ∘ fun x => if x.id == d.id then d else x) =
        acc.map StoredDoc.id := by
      apply List.map_congr_left
      intro y _
      by_cases hc : (y.id == d.id) = true
      · simp [Function.comp, hc, (beq_iff_eq.mp hc).symm]
      · simp [Function.comp, hc]
    rw [heq]
    exact h
  · rename_i hany
    rw [List.map_append, List.nodup_append]
    refine ⟨h, by simp, ?_⟩
    intro a ha hb
    rcases List.mem_map.mp ha with ⟨y, hy, hya⟩
    have hb' : a = d.id := by simpa using hb
    exact hany (List.any_eq_true.mpr ⟨y, hy, beq_iff_eq.mpr (hya.trans hb')⟩)

theorem foldl_mapSetDoc_ids_nodup :
    ∀ (ds acc : List StoredDoc), (acc.map StoredDoc.id).Nodup →
      ((ds.foldl mapSetDoc acc).map StoredDoc.id).Nodup := by
  intro ds
  induction ds with
  | nil => exact fun acc h => h
  | cons d rest ih => exact fun acc h => ih _ (mapSetDoc_ids_nodup h)

theorem dedupById_ids_nodup (ds : List StoredDoc) :
    ((dedupById ds).map StoredDoc.id).Nodup :=
  foldl_mapSetDoc_ids_nodup ds [] List.nodup_nil

theorem foldl_mapSetDoc_length :
    ∀ (ds acc : List StoredDoc),
      (ds.foldl mapSetDoc acc).length ≤ acc.length + ds.length := by
  intro ds
  induction ds with
  | nil => intro acc; simp
  | cons d rest ih =>
    intro acc
    have hstep : (mapSetDoc acc d).length ≤ acc.length + 1 := by
      unfold mapSetDoc
      split
      · simp
      · simp
    have := ih (mapSetDoc acc d)
    simp only [List.foldl_cons, List.length_cons]
    omega

theorem dedupById_length_le (ds : List StoredDoc) :
    (dedupById ds).length ≤ ds.length := by
  have := foldl_mapSetDoc_length ds []
  simpa [dedupById] using this

theorem flatten_length_le {α : Type} (k : Nat) :
    ∀ (gs : List (List α)), (∀ g ∈ gs, g.length ≤ k) →
      gs.flatten.length ≤ k * gs.length := by
  intro gs
  induction gs with
  | nil => simp
  | cons g rest ih =>
    intro hg
    rw [List.flatten_cons, List.length_append, List.length_cons]
    have h1 := hg g (List.mem_cons_self _ _)
    have h2 := ih (fun g' hg' => hg g' (List.mem_cons_of_mem _ hg'))
    have : k * (rest.length + 1) = k * rest.length + k := by ring
    omega

theorem indexSearch_group_length {idx : List SearchDoc} {query : String}
    {limit : Nat} {g : List SearchDoc} (hg : g ∈ indexSearch idx query limit) :
    g.length ≤ limit := by
  unfold indexSearch at hg
  split at hg
  · cases hg
  · rcases List.mem_map.mp (List.mem_of_mem_filter hg) with ⟨f, _, hfg⟩
    rw [← hfg]
    exact List.length_take_le _ _

theorem indexSearch_length {idx : List SearchDoc} {query : String} {limit : Nat} :
    (indexSearch idx query limit).length ≤ 3 := by
  unfold indexSearch
  split
  · simp
  · exact le_trans (List.length_filter_le _ _) (by simp)

theorem mem_of_mem_indexSearch {idx : List SearchDoc} {query : String}
    {limit : Nat} {g : List SearchDoc} {x : SearchDoc}
    (hg : g ∈ indexSearch idx query limit) (hx : x ∈ g) : x ∈ idx := by
  unfold indexSearch at hg
  split at hg
  · cases hg
  · rcases List.mem_map.mp (List.mem_of_mem_filter hg) with ⟨f, _, hfg⟩
    rw [← hfg] at hx
    exact List.mem_of_mem_filter (List.mem_of_mem_take hx)

theorem fullTextSearch_result_cases (qtbl : List Question) (s : SearchState)
    (query : String) (b : Bool) :
    (fullTextSearchQuestions qtbl s query b).1 = [] ∨
    ((fullTextSearchQuestions qtbl s query b).1 =
        dedupById ((indexSearch (qtbl.map toSearchDoc) query 10).flatten.map
          storedDocOf) ∧
      s.index = none) ∨
    ∃ idx, s.index = some idx ∧
      (fullTextSearchQuestions qtbl s query b).1 =
        dedupById ((indexSearch idx query 10).flatten.map storedDocOf) := by
  obtain ⟨fl, idx⟩ := s
  cases idx with
  | none =>
    cases fl
    · left; rfl
    · cases b
      · right; left; exact ⟨rfl, rfl⟩
      · left; rfl
  | some i =>
    cases b
    · right; right; exact ⟨i, rfl, rfl⟩
    · left; rfl

/-- C2 (amended): `fullTextSearchQuestions` never returns two results with
the same id, and returns at most 30 results — 10 per indexed field, because
the FlexSearch limit applies to each field group and the Map dedup does not
re-cap the merged list. -/
theorem fullTextSearch_nodup_ids_and_bounded (qtbl : List Question)
    (s : SearchState) (query : String) (b : Bool) :
    ((fullTextSearchQuestions qtbl s query b).1.map StoredDoc.id).Nodup ∧
    (fullTextSearchQuestions qtbl s query b).1.length ≤ 30 := by
  have main : ∀ idx : List SearchDoc,
      ((dedupById ((indexSearch idx query 10).flatten.map storedDocOf)).map
        StoredDoc.id).Nodup ∧
      (dedupById ((indexSearch idx query 10).flatten.map storedDocOf)).length ≤ 30 := by
    intro idx
    refine ⟨dedupById_ids_nodup _, ?_⟩
    have h1 := dedupById_length_le ((indexSearch idx query 10).flatten.map storedDocOf)
    have h2 := flatten_length_le 10 (indexSearch idx query 10)
      (fun g hg => indexSearch_group_length hg)
    have h3 : (indexSearch idx query 10).length ≤ 3 := indexSearch_length
    rw [List.length_map] at h1
    omega
  rcases fullTextSearch_result_cases qtbl s query b with h | ⟨h, _⟩ | ⟨idx, _, h⟩
  · rw [h]; exact ⟨List.nodup_nil, by simp⟩
  · rw [h]; exact main _
  · rw [h]; exact main _

/-- C2 counterexample: with eleven stored questions — ten hit on
question_text, an eleventh only on keywords — one query returns 11 distinct
results, so the claimed hard cap of 10 fails (the 10-limit is per field). -/
theorem fullTextSearch_limit_exceeded :
    ¬ (((fullTextSearchQuestions c2Table ⟨true, none⟩ "a" false).1.length ≤ 10) ∧
       ((fullTextSearchQuestions c2Table ⟨true, none⟩ "a" false).1.map
          StoredDoc.id).Nodup) := by
  decide

/-- C8: when the FlexSearch library is unavailable (the index cannot be
constructed) the search returns the empty list, and when the underlying
index query throws, the catch also yields the empty list; no exception
reaches the caller (the function is total and returns a plain list). -/
theorem fullTextSearch_degrades_gracefully (qtbl : List Question)
    (s : SearchState) (query : String) :
    (s.flexLoaded = false → s.index = none →
      ∀ b, (fullTextSearchQuestions qtbl s query b).1 = []) ∧
    (fullTextSearchQuestions qtbl s query true).1 = [] := by
  obtain ⟨fl, idx⟩ := s
  constructor
  · intro hfl hidx b
    simp only at hfl hidx
    subst hfl
    subst hidx
    rfl
  · cases idx with
    | none => cases fl <;> rfl
    | some i => rfl

/-- Witness for C8: library absent, index never built; both failure paths
return the empty result list. -/
theorem fullTextSearch_degrades_gracefully_witness :
    (fullTextSearchQuestions [] ⟨false, none⟩ "polity" false).1 = [] ∧
    (fullTextSearchQuestions [] ⟨false, none⟩ "polity" true).1 = [] :=
  ⟨(fullTextSearch_degrades_gracefully [] ⟨false, none⟩ "polity").1 rfl rfl false,
   (fullTextSearch_degrades_gracefully [] ⟨false, none⟩ "polity").2⟩

/-- C9 counterexample: a search hit is not the persisted Question record —
the enriched document of the one matching question lacks subject, topic,
options, type, statements and the full explanation, because the index add
only ever supplies the four projected fields. -/
theorem fullTextSearch_not_full_records :
    ¬ (∀ d ∈ (fullTextSearchQuestions c9Table ⟨true, none⟩ "zest" false).1,
        ∃ q ∈ c9Table, searchDocIsFullRecordOf d q = true) := by
  decide

/-- C9 (amended): every result element is the enriched stored projection of
a stored question — only id, question_text and keywords are present; the
other configured store fields, and any explanation summary, are absent —
provided the index, when already built, holds the added projections of
stored questions, as `populateSearchIndex` guarantees. -/
theorem fullTextSearch_returns_projections (qtbl : List Question)
    (s : SearchState) (query : String) (b : Bool)
    (hidx : s.index = none ∨
      ∃ idx, s.index = some idx ∧ ∀ d ∈ idx, ∃ q ∈ qtbl, d = toSearchDoc q) :
    ∀ d ∈ (fullTextSearchQuestions qtbl s query b).1,
      ∃ q ∈ qtbl, d = storedDocOf (toSearchDoc q) := by
  intro d hd
  rcases fullTextSearch_result_cases qtbl s query b with h | ⟨h, _⟩ | ⟨idx, hsome, h⟩
  · rw [h] at hd; cases hd
  · rw [h] at hd
    rcases List.mem_map.mp (mem_dedupById hd) with ⟨x, hx, hxd⟩
    rcases List.mem_flatten.mp hx with ⟨g, hg, hxg⟩
    rcases List.mem_map.mp (mem_of_mem_indexSearch hg hxg) with ⟨q, hq, hqx⟩
    exact ⟨q, hq, by rw [← hxd, ← hqx]⟩
  · rw [h] at hd
    rcases hidx with hnone | ⟨idx', hsome', hproj⟩
    · rw [hnone] at hsome; cases hsome
    · rw [hsome'] at hsome
      injection hsome with hii
      subst hii
      rcases List.mem_map.mp (mem_dedupById hd) with ⟨x, hx, hxd⟩
      rcases List.mem_flatten.mp hx with ⟨g, hg, hxg⟩
      rcases hproj x (mem_of_mem_indexSearch hg hxg) with ⟨q, hq, hqx⟩
      exact ⟨q, hq, by rw [← hxd, hqx]⟩

/-- Witness for C9 (amended): the first hit of a lazy first search over the
one-question store is the enriched stored projection of a stored question. -/
theorem fullTextSearch_returns_projections_witness :
    ∃ q ∈ c9Table,
      (fullTextSearchQuestions c9Table ⟨true, none⟩ "zest" false).1.head? =
        some (storedDocOf (toSearchDoc q)) := by
  rcases fullTextSearch_returns_projections c9Table ⟨true, none⟩ "zest" false
      (Or.inl rfl)
      (storedDocOf (toSearchDoc ⟨1, "History", "IVC", ["harappa"], "zest",
        [⟨1, "S1"⟩], [⟨"a", "A", true⟩], "single-choice",
        some ⟨"short", "long text"⟩⟩))
      (by decide) with ⟨q, hq, hdq⟩
  exact ⟨q, hq, by rw [← hdq]; decide⟩

/-- C1 (code bug): in a session whose startup already built the search index
(here: empty store, FlexSearch loaded), `addQuestions` persists a new
question, yet `fullTextSearchQuestions` of a distinctive token of its
question_text returns `[]` — no code path updates the index after a write.
The third conjunct shows the same search finds the question when the index
is still unbuilt (lazy build reads the table), so the record itself is
searchable data and only the missing index refresh hides it. -/
theorem addQuestions_not_searchable_after_startup :
    c1Question ∈ addQuestions (startup [] (.ok []) ⟨true, none⟩).1.1 [c1Question] ∧
    (fullTextSearchQuestions
        (addQuestions (startup [] (.ok []) ⟨true, none⟩).1.1 [c1Question])
        (startup [] (.ok []) ⟨true, none⟩).2 "zebra" false).1 = [] ∧
    ((fullTextSearchQuestions
        (addQuestions (startup [] (.ok []) ⟨true, none⟩).1.1 [c1Question])
        ⟨true, none⟩ "zebra" false).1.map StoredDoc.id) = [42] := by
  decide

end UPSCPro
